import Mathlib

/-!
Shallow embedding of the kinematics core of SScanSS-2 (pose algebra,
joint/chain model, forward kinematics, trajectory generation, animation
sequencing and the numeric inverse-kinematics solver), together with
theorems settling the specification claims about it.

Sources embedded here:
  sscanss/core/math/quaternion.py  (Quaternion, QuaternionVectorPair)
  sscanss/core/instrument/robotics.py  (SerialManipulator, Link,
    joint_space_trajectory, cubic_polynomial_trajectory, Sequence,
    numeric_inverse_kinematics)

Real-valued scalars stand for the Python floats; machine rounding is not
modelled, all arithmetic is exact.
-/

namespace SScanSS

noncomputable section

/-- Tolerance constant eps = 1e-7 from sscanss/core/math/quaternion.py. -/
def eps : ℝ := 1e-7

/-- Three component real vector, mirroring sscanss.core.math.vector.Vector3. -/
@[ext]
structure V3 where
  x : ℝ
  y : ℝ
  z : ℝ

namespace V3

/-- Zero vector, the default Vector3(). -/
def zero : V3 := ⟨0, 0, 0⟩

/-- Componentwise addition. -/
def add (a b : V3) : V3 := ⟨a.x + b.x, a.y + b.y, a.z + b.z⟩

/-- Componentwise subtraction. -/
def sub (a b : V3) : V3 := ⟨a.x - b.x, a.y - b.y, a.z - b.z⟩

/-- Scalar multiple of a vector. -/
def smul (c : ℝ) (a : V3) : V3 := ⟨c * a.x, c * a.y, c * a.z⟩

/-- Dot product. -/
def dot (a b : V3) : ℝ := a.x * b.x + a.y * b.y + a.z * b.z

/-- Cross product, the Vector3 operator used in the Hamilton product. -/
def cross (a b : V3) : V3 :=
  ⟨a.y * b.z - a.z * b.y, a.z * b.x - a.x * b.z, a.x * b.y - a.y * b.x⟩

/-- Euclidean length of the vector. -/
def length (a : V3) : ℝ := Real.sqrt (a.dot a)

/-- Division of a vector by a scalar, componentwise. -/
def divs (a : V3) (c : ℝ) : V3 := ⟨a.x / c, a.y / c, a.z / c⟩

/-- Unit direction, vector divided by its length. -/
def normalized (a : V3) : V3 := a.divs a.length

end V3

/-- Quaternion with scalar part w and vector part (x, y, z), mirroring
sscanss.core.math.quaternion.Quaternion. -/
@[ext]
structure Quaternion where
  w : ℝ
  x : ℝ
  y : ℝ
  z : ℝ

namespace Quaternion

/-- Identity rotation (1, 0, 0, 0). -/
def identity : Quaternion := ⟨1, 0, 0, 0⟩

/-- Vector part of the quaternion, the axis property in the source. -/
def axis (q : Quaternion) : V3 := ⟨q.x, q.y, q.z⟩

/-- Conjugate quaternion, vector part negated. -/
def conjugate (q : Quaternion) : Quaternion := ⟨q.w, -q.x, -q.y, -q.z⟩

/-- Magnitude of the quaternion, the Euclidean norm of its four components. -/
def magnitude (q : Quaternion) : ℝ :=
  Real.sqrt (q.x * q.x + q.y * q.y + q.z * q.z + q.w * q.w)

/-- Normalize divides every component by the magnitude; a zero quaternion
normalizes to the default Quaternion(), which is all zeros. -/
def normalize (q : Quaternion) : Quaternion :=
  if q.magnitude ≠ 0 then
    ⟨q.w / q.magnitude, q.x / q.magnitude, q.y / q.magnitude, q.z / q.magnitude⟩
  else ⟨0, 0, 0, 0⟩

/-- Inverse is conjugate followed by normalize, as in the source. -/
def inverse (q : Quaternion) : Quaternion := q.conjugate.normalize

/-- Hamilton product from the source: the scalar part is w1 w2 minus the dot
of the vector parts, the vector part is w1 v2 + w2 v1 plus their cross. -/
def mul (q p : Quaternion) : Quaternion :=
  let w := q.w * p.w - (q.axis.dot p.axis)
  let v := ((q.axis.smul p.w).add (p.axis.smul q.w)).add (q.axis.cross p.axis)
  ⟨w, v.x, v.y, v.z⟩

/-- Rotation of a point: embed it as a pure quaternion, sandwich with q and
the inverse of q, and take the vector part. -/
def rotate (q : Quaternion) (point : V3) : V3 :=
  let p : Quaternion := ⟨0, point.x, point.y, point.z⟩
  ((q.mul p).mul q.inverse).axis

/-- Quaternion from an axis and an angle: w = cos(angle/2) and the vector
part is the normalized axis scaled by sin(angle/2). -/
def fromAxisAngle (ax : V3) (angle : ℝ) : Quaternion :=
  let v := ax.normalized.smul (Real.sin (angle / 2))
  ⟨Real.cos (angle / 2), v.x, v.y, v.z⟩

/-- Angle computed by toAxisAngle, twice the arc cosine of w. -/
def toAxisAngleAngle (q : Quaternion) : ℝ := 2 * Real.arccos q.w

/-- Divisor used by toAxisAngle on its unguarded branch. -/
def toAxisAngleS (q : Quaternion) : ℝ := Real.sqrt (1 - q.w * q.w)

/-- Axis and angle extraction: below the eps guard the axis is the zero
vector, otherwise the vector part divided by s = sqrt(1 - w * w). -/
def toAxisAngle (q : Quaternion) : V3 × ℝ :=
  if q.toAxisAngleAngle < eps then (V3.zero, q.toAxisAngleAngle)
  else ((q.axis.divs q.toAxisAngleS), q.toAxisAngleAngle)

/-- Proposition that the division inside toAxisAngle is reached only with a
nonzero divisor: either the guard fires, or s is nonzero. -/
def toAxisAngleSafe (q : Quaternion) : Prop :=
  q.toAxisAngleAngle < eps ∨ q.toAxisAngleS ≠ 0

end Quaternion

/-- Three by three real matrix with the one-based field names used by the
source Matrix33. -/
@[ext]
structure M33 where
  m11 : ℝ
  m12 : ℝ
  m13 : ℝ
  m21 : ℝ
  m22 : ℝ
  m23 : ℝ
  m31 : ℝ
  m32 : ℝ
  m33 : ℝ

namespace M33

/-- Identity matrix. -/
def id : M33 := ⟨1, 0, 0, 0, 1, 0, 0, 0, 1⟩

/-- Trace of the matrix. -/
def trace (m : M33) : ℝ := m.m11 + m.m22 + m.m33

/-- Determinant of the matrix. -/
def det (m : M33) : ℝ :=
  m.m11 * (m.m22 * m.m33 - m.m23 * m.m32)
    - m.m12 * (m.m21 * m.m33 - m.m23 * m.m31)
    + m.m13 * (m.m21 * m.m32 - m.m22 * m.m31)

/-- Rows of the matrix as vectors. -/
def row1 (m : M33) : V3 := ⟨m.m11, m.m12, m.m13⟩

/-- Second row of the matrix. -/
def row2 (m : M33) : V3 := ⟨m.m21, m.m22, m.m23⟩

/-- Third row of the matrix. -/
def row3 (m : M33) : V3 := ⟨m.m31, m.m32, m.m33⟩

/-- Proposition that the matrix is a proper rotation: orthonormal rows and
determinant one. -/
def isRotation (m : M33) : Prop :=
  m.row1.dot m.row1 = 1 ∧ m.row2.dot m.row2 = 1 ∧ m.row3.dot m.row3 = 1 ∧
  m.row1.dot m.row2 = 0 ∧ m.row1.dot m.row3 = 0 ∧ m.row2.dot m.row3 = 0 ∧
  m.det = 1

end M33

namespace Quaternion

/-- Rotation matrix of a quaternion, entrywise as in the source toMatrix. -/
def toMatrix (q : Quaternion) : M33 :=
  let twoxx := 2 * q.x * q.x
  let twoyy := 2 * q.y * q.y
  let twozz := 2 * q.z * q.z
  let twowx := 2 * q.w * q.x
  let twowy := 2 * q.w * q.y
  let twowz := 2 * q.w * q.z
  let twoxy := 2 * q.x * q.y
  let twoxz := 2 * q.x * q.z
  let twoyz := 2 * q.y * q.z
  ⟨1 - twoyy - twozz, twoxy - twowz, twoxz + twowy,
   twoxy + twowz, 1 - twoxx - twozz, twoyz - twowx,
   twoxz - twowy, twoyz + twowx, 1 - twoxx - twoyy⟩

/-- Branch selection of fromMatrix: returns the value t taken under the
final square root together with the unscaled component list (w, x, y, z),
following the nested conditionals of the source exactly. -/
def fromMatrixPair (m : M33) : ℝ × (ℝ × ℝ × ℝ × ℝ) :=
  if m.m33 < eps then
    if m.m11 > m.m22 then
      let t := 1 + m.m11 - m.m22 - m.m33
      (t, (m.m32 - m.m23, t, m.m12 + m.m21, m.m13 + m.m31))
    else
      let t := 1 - m.m11 + m.m22 - m.m33
      (t, (m.m13 - m.m31, m.m12 + m.m21, t, m.m23 + m.m32))
  else
    if m.m11 < -m.m22 then
      let t := 1 - m.m11 - m.m22 + m.m33
      (t, (m.m21 - m.m12, m.m13 + m.m31, m.m23 + m.m32, t))
    else
      let t := 1 + m.m11 + m.m22 + m.m33
      (t, (m.m32 - m.m23, m.m13 - m.m31, m.m21 - m.m12, t))

/-- Value under the square root selected by fromMatrix. -/
def fromMatrixT (m : M33) : ℝ := (fromMatrixPair m).1

/-- Largest of the four candidate values 4qx^2, 4qy^2, 4qz^2, 4qw^2 that the
four branches of fromMatrix could place under the square root; picking the
branch whose t is this maximum is equivalent to picking the largest of
m11, m22, m33 and the trace. -/
def fromMatrixMaxT (m : M33) : ℝ :=
  max (max (1 + m.m11 - m.m22 - m.m33) (1 - m.m11 + m.m22 - m.m33))
      (max (1 - m.m11 - m.m22 + m.m33) (1 + m.m11 + m.m22 + m.m33))

/-- Quaternion from a rotation matrix: the selected component list scaled
by 0.5 over the square root of the selected t. -/
def fromMatrix (m : M33) : Quaternion :=
  let p := fromMatrixPair m
  let s := 0.5 / Real.sqrt p.1
  ⟨p.2.1 * s, p.2.2.1 * s, p.2.2.2.1 * s, p.2.2.2.2 * s⟩

end Quaternion

/-- Four by four homogeneous transform with one-based entry names, mirroring
sscanss.core.math.matrix.Matrix44. -/
@[ext]
structure M44 where
  m11 : ℝ
  m12 : ℝ
  m13 : ℝ
  m14 : ℝ
  m21 : ℝ
  m22 : ℝ
  m23 : ℝ
  m24 : ℝ
  m31 : ℝ
  m32 : ℝ
  m33 : ℝ
  m34 : ℝ
  m41 : ℝ
  m42 : ℝ
  m43 : ℝ
  m44 : ℝ

namespace M44

/-- Identity matrix. -/
def id : M44 := ⟨1, 0, 0, 0, 0, 1, 0, 0, 0, 0, 1, 0, 0, 0, 0, 1⟩

/-- Matrix product. -/
def mul (a b : M44) : M44 :=
  ⟨a.m11 * b.m11 + a.m12 * b.m21 + a.m13 * b.m31 + a.m14 * b.m41,
   a.m11 * b.m12 + a.m12 * b.m22 + a.m13 * b.m32 + a.m14 * b.m42,
   a.m11 * b.m13 + a.m12 * b.m23 + a.m13 * b.m33 + a.m14 * b.m43,
   a.m11 * b.m14 + a.m12 * b.m24 + a.m13 * b.m34 + a.m14 * b.m44,
   a.m21 * b.m11 + a.m22 * b.m21 + a.m23 * b.m31 + a.m24 * b.m41,
   a.m21 * b.m12 + a.m22 * b.m22 + a.m23 * b.m32 + a.m24 * b.m42,
   a.m21 * b.m13 + a.m22 * b.m23 + a.m23 * b.m33 + a.m24 * b.m43,
   a.m21 * b.m14 + a.m22 * b.m24 + a.m23 * b.m34 + a.m24 * b.m44,
   a.m31 * b.m11 + a.m32 * b.m21 + a.m33 * b.m31 + a.m34 * b.m41,
   a.m31 * b.m12 + a.m32 * b.m22 + a.m33 * b.m32 + a.m34 * b.m42,
   a.m31 * b.m13 + a.m32 * b.m23 + a.m33 * b.m33 + a.m34 * b.m43,
   a.m31 * b.m14 + a.m32 * b.m24 + a.m33 * b.m34 + a.m34 * b.m44,
   a.m41 * b.m11 + a.m42 * b.m21 + a.m43 * b.m31 + a.m44 * b.m41,
   a.m41 * b.m12 + a.m42 * b.m22 + a.m43 * b.m32 + a.m44 * b.m42,
   a.m41 * b.m13 + a.m42 * b.m23 + a.m43 * b.m33 + a.m44 * b.m43,
   a.m41 * b.m14 + a.m42 * b.m24 + a.m43 * b.m34 + a.m44 * b.m44⟩

/-- Application of the upper left rotation block followed by adding the
translation column, the slice expression H[0:3, 0:3] @ p + H[0:3, 3]. -/
def applyPoint (a : M44) (p : V3) : V3 :=
  ⟨a.m11 * p.x + a.m12 * p.y + a.m13 * p.z + a.m14,
   a.m21 * p.x + a.m22 * p.y + a.m23 * p.z + a.m24,
   a.m31 * p.x + a.m32 * p.y + a.m33 * p.z + a.m34⟩

/-- Application of the upper left rotation block alone,
the slice expression H[0:3, 0:3] @ p. -/
def applyVector (a : M44) (p : V3) : V3 :=
  ⟨a.m11 * p.x + a.m12 * p.y + a.m13 * p.z,
   a.m21 * p.x + a.m22 * p.y + a.m23 * p.z,
   a.m31 * p.x + a.m32 * p.y + a.m33 * p.z⟩

end M44

/-- Pair of a quaternion and a translation, the Quaternion-vector kinematic
notation of the source. -/
@[ext]
structure QVPair where
  quaternion : Quaternion
  vector : V3

namespace QVPair

/-- Identity pair: identity quaternion and zero vector. -/
def identity : QVPair := ⟨Quaternion.identity, V3.zero⟩

/-- Composition: quaternions multiply, and the right translation is rotated
by the left quaternion then added to the left translation. -/
def mul (a b : QVPair) : QVPair :=
  ⟨a.quaternion.mul b.quaternion, (a.quaternion.rotate b.vector).add a.vector⟩

/-- Homogeneous matrix of the pair: rotation block from the quaternion,
translation column from the vector, bottom row 0 0 0 1. -/
def toMatrix (p : QVPair) : M44 :=
  let r := p.quaternion.toMatrix
  ⟨r.m11, r.m12, r.m13, p.vector.x,
   r.m21, r.m22, r.m23, p.vector.y,
   r.m31, r.m32, r.m33, p.vector.z,
   0, 0, 0, 1⟩

end QVPair

/-! Basic algebra lemmas about the embedded pose operations. -/

theorem Quaternion.magnitude_conjugate (q : Quaternion) :
    q.conjugate.magnitude = q.magnitude := by
  unfold Quaternion.conjugate Quaternion.magnitude
  congr 1
  ring

theorem Quaternion.sumSq_eq_one_of_unit (q : Quaternion) (h : q.magnitude = 1) :
    q.x * q.x + q.y * q.y + q.z * q.z + q.w * q.w = 1 := by
  have h0 : (0 : ℝ) ≤ q.x * q.x + q.y * q.y + q.z * q.z + q.w * q.w := by
    nlinarith [mul_self_nonneg q.x, mul_self_nonneg q.y, mul_self_nonneg q.z,
      mul_self_nonneg q.w]
  have h2 := Real.sq_sqrt h0
  rw [Quaternion.magnitude] at h
  rw [h] at h2
  nlinarith [h2]

theorem Quaternion.inverse_of_unit (q : Quaternion) (h : q.magnitude = 1) :
    q.inverse = q.conjugate := by
  unfold Quaternion.inverse Quaternion.normalize
  rw [Quaternion.magnitude_conjugate, h]
  norm_num

/-- C8: for every unit quaternion q, the Hamilton product of q with
inverse(q), where inverse is conjugate followed by normalize, equals the
identity rotation (1, 0, 0, 0) to within 1e-5 in every component (here the
product is exactly the identity, so the bound holds). -/
theorem C8_mul_inverse_is_identity (q : Quaternion) (h : q.magnitude = 1) :
    |(q.mul q.inverse).w - 1| ≤ 1e-5 ∧ |(q.mul q.inverse).x| ≤ 1e-5 ∧
    |(q.mul q.inverse).y| ≤ 1e-5 ∧ |(q.mul q.inverse).z| ≤ 1e-5 := by
  have hs := Quaternion.sumSq_eq_one_of_unit q h
  rw [Quaternion.inverse_of_unit q h]
  have hprod : q.mul q.conjugate = Quaternion.identity := by
    ext <;>
      simp only [Quaternion.mul, Quaternion.conjugate, Quaternion.axis, V3.dot,
        V3.smul, V3.add, V3.cross, Quaternion.identity] <;>
      nlinarith [hs]
  rw [hprod]
  norm_num [Quaternion.identity]

/-- C8 witness: the concrete unit quaternion (3/5, 4/5, 0, 0) satisfies the
unit hypothesis and the identity bound. -/
theorem C8_witness :
    Quaternion.magnitude ⟨3 / 5, 4 / 5, 0, 0⟩ = 1 ∧
    (|((⟨3 / 5, 4 / 5, 0, 0⟩ : Quaternion).mul
        (⟨3 / 5, 4 / 5, 0, 0⟩ : Quaternion).inverse).w - 1| ≤ 1e-5 ∧
     |((⟨3 / 5, 4 / 5, 0, 0⟩ : Quaternion).mul
        (⟨3 / 5, 4 / 5, 0, 0⟩ : Quaternion).inverse).x| ≤ 1e-5 ∧
     |((⟨3 / 5, 4 / 5, 0, 0⟩ : Quaternion).mul
        (⟨3 / 5, 4 / 5, 0, 0⟩ : Quaternion).inverse).y| ≤ 1e-5 ∧
     |((⟨3 / 5, 4 / 5, 0, 0⟩ : Quaternion).mul
        (⟨3 / 5, 4 / 5, 0, 0⟩ : Quaternion).inverse).z| ≤ 1e-5) :=
  have h : Quaternion.magnitude ⟨3 / 5, 4 / 5, 0, 0⟩ = 1 := by
    rw [Quaternion.magnitude]
    rw [show (4 : ℝ) / 5 * (4 / 5) + 0 * 0 + 0 * 0 + 3 / 5 * (3 / 5) = 1 by norm_num]
    exact Real.sqrt_one
  ⟨h, C8_mul_inverse_is_identity ⟨3 / 5, 4 / 5, 0, 0⟩ h⟩

/-- C10 counterexample: the unit quaternion (-1, 0, 0, 0) reaches the
division branch of toAxisAngle with divisor s = 0, because its angle
2 * arccos(-1) = 2 * pi is not below the eps guard; so the guard does not
make the zero-divisor case unreachable for every unit quaternion. -/
theorem C10_counterexample :
    Quaternion.magnitude ⟨-1, 0, 0, 0⟩ = 1 ∧
    ¬ Quaternion.toAxisAngleSafe ⟨-1, 0, 0, 0⟩ := by
  constructor
  · rw [Quaternion.magnitude]
    rw [show (0 : ℝ) * 0 + 0 * 0 + 0 * 0 + -1 * -1 = 1 by norm_num]
    exact Real.sqrt_one
  · rw [Quaternion.toAxisAngleSafe]
    push_neg
    constructor
    · rw [Quaternion.toAxisAngleAngle]
      show eps ≤ 2 * Real.arccos (-1)
      rw [Real.arccos_neg_one, eps]
      nlinarith [Real.pi_gt_three]
    · rw [Quaternion.toAxisAngleS]
      show Real.sqrt (1 - (-1 : ℝ) * -1) = 0
      rw [show (1 : ℝ) - (-1 : ℝ) * -1 = 0 by norm_num]
      exact Real.sqrt_zero

/-- C10 (amended): for every unit quaternion whose scalar part is not -1,
toAxisAngle reaches the division of the vector part by s = sqrt(1 - w * w)
only when s is nonzero; at w = 1 the angle guard fires, and otherwise
1 - w * w is strictly positive. -/
theorem C10_amended_safe_away_from_neg_one (q : Quaternion)
    (h : q.magnitude = 1) (hw : q.w ≠ -1) : q.toAxisAngleSafe := by
  have hs := Quaternion.sumSq_eq_one_of_unit q h
  by_cases hw1 : q.w = 1
  · left
    rw [Quaternion.toAxisAngleAngle, hw1, Real.arccos_one, eps]
    norm_num
  · right
    have hle : q.w * q.w ≤ 1 := by nlinarith
    have hne : q.w * q.w ≠ 1 := by
      intro he
      rcases mul_self_eq_one_iff.mp he with h1 | h1
      · exact hw1 h1
      · exact hw h1
    have hpos : 0 < 1 - q.w * q.w := by
      rcases lt_or_eq_of_le hle with hlt | heq
      · linarith
      · exact absurd heq hne
    rw [Quaternion.toAxisAngleS]
    exact ne_of_gt (Real.sqrt_pos.mpr hpos)

/-- C10 witness: the identity quaternion satisfies both hypotheses, and the
division in toAxisAngle is guarded there. -/
theorem C10_witness :
    Quaternion.magnitude ⟨1, 0, 0, 0⟩ = 1 ∧ (⟨1, 0, 0, 0⟩ : Quaternion).w ≠ -1 ∧
    Quaternion.toAxisAngleSafe ⟨1, 0, 0, 0⟩ :=
  have h : Quaternion.magnitude ⟨1, 0, 0, 0⟩ = 1 := by
    rw [Quaternion.magnitude]
    rw [show (0 : ℝ) * 0 + 0 * 0 + 0 * 0 + 1 * 1 = 1 by norm_num]
    exact Real.sqrt_one
  ⟨h, by norm_num, C10_amended_safe_away_from_neg_one ⟨1, 0, 0, 0⟩ h (by norm_num)⟩

/-- Concrete proper rotation matrix, the image of the unit quaternion
(0.7, 0.5, 0.5, 0.1) under toMatrix, used to exercise fromMatrix. -/
def rotEx : M33 :=
  ⟨0.48, 0.36, 0.8,
   0.64, 0.48, -0.6,
   -0.6, 0.8, 0⟩

/-- C7 counterexample: on the proper rotation matrix rotEx the branch chosen
by fromMatrix yields t = 1, while the largest available candidate (the trace
branch) yields 1.96; so fromMatrix does not always select the branch whose t
corresponds to the largest of m11, m22, m33 and the trace. -/
theorem C7_counterexample :
    M33.isRotation rotEx ∧
    Quaternion.fromMatrixT rotEx ≠ Quaternion.fromMatrixMaxT rotEx := by
  constructor
  · refine ⟨?_, ?_, ?_, ?_, ?_, ?_, ?_⟩ <;>
      norm_num [rotEx, M33.row1, M33.row2, M33.row3, V3.dot, M33.det]
  · rw [Quaternion.fromMatrixT, Quaternion.fromMatrixPair, Quaternion.fromMatrixMaxT]
    norm_num [rotEx, eps, max_def]

/-- C7 (amended): the nested sign tests of fromMatrix guarantee that the
selected value t under the square root exceeds 1 - eps for every input
matrix, so the square root is bounded away from zero on every proper
rotation matrix; but the selected branch is not always the one with the
largest t. -/
theorem C7_amended_selected_t_large (m : M33) :
    1 - eps < Quaternion.fromMatrixT m := by
  have heps : (0 : ℝ) < eps := by rw [eps]; norm_num
  rw [Quaternion.fromMatrixT, Quaternion.fromMatrixPair]
  split_ifs with h1 h2 h3 <;> dsimp only <;> push_neg at * <;> linarith

/-! Joint and kinematic chain model from sscanss/core/instrument/robotics.py. -/

/-- Joint type of a link: revolute or prismatic. -/
inductive LinkType where
  | Revolute
  | Prismatic
deriving DecidableEq

/-- State of a joint of the chain, mirroring the attributes of Link in the
source: geometry (axis, home point, type), limits, default offset, current
offset and set point, the lock and ignore-limits flags, and the current
local pose stored as a quaternion and a position vector. The optional mesh
and name attributes are opaque to the kinematics and omitted. -/
structure Link where
  joint_axis : V3
  home : V3
  type : LinkType
  default_offset : ℝ
  lower_limit : Option ℝ
  upper_limit : Option ℝ
  offset : ℝ
  set_point : ℝ
  locked : Bool
  ignore_limits : Bool
  quaternion : Quaternion
  vector : V3

instance : Inhabited Link :=
  ⟨⟨⟨1, 0, 0⟩, V3.zero, .Prismatic, 0, none, none, 0, 0, false, false,
    Quaternion.identity, V3.zero⟩⟩

/-- Move of a link by an offset: a locked link without the override flag is
returned unchanged (a silent no-op; move is total and never fails);
otherwise the offset is stored, the set point follows when setpoint is
true, and the local pose is recomputed: a revolute joint rotates its home
point by the axis-angle quaternion, a prismatic joint translates its home
point along the axis, keeping its quaternion. -/
def Link.move (l : Link) (offset : ℝ) (ignore_locks setpoint : Bool) : Link :=
  if l.locked && !ignore_locks then l
  else
    { l with
        offset := offset
        set_point := if setpoint then offset else l.set_point
        quaternion :=
          match l.type with
          | .Revolute => Quaternion.fromAxisAngle l.joint_axis offset
          | .Prismatic => l.quaternion
        vector :=
          match l.type with
          | .Revolute => (Quaternion.fromAxisAngle l.joint_axis offset).rotate l.home
          | .Prismatic => l.home.add (l.joint_axis.smul offset) }

/-- Reset of a link: move to the default offset ignoring locks, with the
setpoint flag at its default of true. -/
def Link.reset (l : Link) : Link := l.move l.default_offset true true

/-- Local pose of the link as a quaternion-vector pair, keeping the
spelling of the source property. -/
def Link.quaterionVectorPair (l : Link) : QVPair := ⟨l.quaternion, l.vector⟩

/-- Constructor state of a link: quaternion from the axis at angle zero,
home and vector at the given point, set point at the default offset, then
a reset. Constructing with a zero-length axis raises a ValueError in the
source (the only hard validation failure of the core) and has no embedded
state. -/
def Link.init (ax point : V3) (joint_type : LinkType) (default_offset : ℝ)
    (upper_limit lower_limit : Option ℝ) : Link :=
  Link.reset
    { joint_axis := ax, home := point, type := joint_type,
      default_offset := default_offset, lower_limit := lower_limit,
      upper_limit := upper_limit, offset := default_offset,
      set_point := default_offset, locked := false, ignore_limits := false,
      quaternion := Quaternion.fromAxisAngle ax 0,
      vector := point }

/-- Open-loop kinematic chain, mirroring SerialManipulator: ordered links,
base matrix, remembered default base, and tool matrix. The mesh attachments
are opaque to the kinematics and omitted. The tool_link matrix is modelled
from the spec: the IK solver composes the forward kinematics with the local
offset and orientation of the tool, read from an attribute of the
positioning system object that is not part of the embedded sources. -/
structure SerialManipulator where
  links : List Link
  base : M44
  default_base : M44
  tool : M44
  tool_link : M44

namespace SerialManipulator

/-- Number of links of the chain. -/
def numberOfLinks (m : SerialManipulator) : ℕ := m.links.length

/-- Current configuration: the offset of every link. -/
def configuration (m : SerialManipulator) : List ℝ := m.links.map Link.offset

/-- Current set points of every link. -/
def set_points (m : SerialManipulator) : List ℝ := m.links.map Link.set_point

end SerialManipulator

/-- Effective start index of fkine: a negative start index becomes zero,
any other value is kept as is. -/
def fkineStart (start_index : ℤ) : ℤ := if start_index < 0 then 0 else start_index

/-- Effective end index of fkine: a missing end index or one above the link
count becomes the link count, any other value is kept as is. -/
def fkineEnd (link_count : ℤ) (end_index : Option ℤ) : ℤ :=
  match end_index with
  | none => link_count
  | some e => if e > link_count then link_count else e

/-- Base factor of fkine: the base matrix exactly when the base is included
and the effective start index is zero, else the identity. -/
def fkineBase (m : SerialManipulator) (include_base : Bool) (start : ℤ) : M44 :=
  if include_base = true ∧ start = 0 then m.base else M44.id

/-- Tool factor of fkine: the tool matrix exactly when the effective end
index equals the link count, else the identity. -/
def fkineTool (m : SerialManipulator) (endv link_count : ℤ) : M44 :=
  if endv = link_count then m.tool else M44.id

/-- One iteration of the fkine loop: move the link at index i to the
corresponding configuration value and fold its local pose into the running
composed pose. -/
def fkineStep (q : List ℝ) (ignore_locks setpoint : Bool)
    (st : List Link × QVPair) (i : ℕ) : List Link × QVPair :=
  let l := (st.1.getD i default).move (q.getD i 0) ignore_locks setpoint
  (st.1.set i l, st.2.mul l.quaterionVectorPair)

/-- Forward kinematics of the chain: moves the links in the effective index
range to the given configuration (a side-effecting operation, so the moved
chain is returned alongside the matrix) and returns base times the composed
local poses times tool, with base and tool replaced by the identity outside
the conditions of fkineBase and fkineTool. -/
def SerialManipulator.fkine (m : SerialManipulator) (q : List ℝ)
    (start_index : ℤ) (end_index : Option ℤ)
    (include_base ignore_locks setpoint : Bool) : SerialManipulator × M44 :=
  let link_count : ℤ := m.numberOfLinks
  let start := fkineStart start_index
  let endv := fkineEnd link_count end_index
  let base := fkineBase m include_base start
  let tool := fkineTool m endv link_count
  let res := (List.range' start.toNat (endv.toNat - start.toNat)).foldl
    (fkineStep q ignore_locks setpoint) (m.links, QVPair.identity)
  ({ m with links := res.1 }, (base.mul res.2.toMatrix).mul tool)

/-- Reset of every link offset to its default. -/
def SerialManipulator.resetOffsets (m : SerialManipulator) : SerialManipulator :=
  { m with links := m.links.map Link.reset }

/-- Full reset of the chain: restore the default base, reset every link to
its default offset and clear its locked and ignore-limits flags. -/
def SerialManipulator.reset (m : SerialManipulator) : SerialManipulator :=
  { m with
      base := m.default_base,
      links := m.links.map fun l =>
        { l.reset with locked := false, ignore_limits := false } }

/-- Concrete prismatic link along the x axis in its constructor state. -/
def linkPX : Link := Link.init ⟨1, 0, 0⟩ V3.zero .Prismatic 0 none none

/-- The same prismatic link with its lock engaged. -/
def linkPXLocked : Link := { linkPX with locked := true }

/-- One-link manipulator: a single unlocked prismatic link along x with
identity base, default base, tool and tool link matrices. -/
def robot1 : SerialManipulator :=
  { links := [linkPX], base := M44.id, default_base := M44.id,
    tool := M44.id, tool_link := M44.id }

/-- Two-link manipulator whose first link is locked. -/
def robot2 : SerialManipulator :=
  { links := [linkPXLocked, linkPX], base := M44.id, default_base := M44.id,
    tool := M44.id, tool_link := M44.id }

/-- C4: for a locked joint, move without the override flag is a silent
no-op that raises no error (move is total) and leaves the whole link state,
offset, set point, quaternion and vector, unchanged; move with the override
flag updates the offset, recomputes the local pose from the joint type, and
updates the set point exactly when the setpoint flag is true. -/
theorem C4_locked_move (l : Link) (o : ℝ) (sp : Bool) (h : l.locked = true) :
    l.move o false sp = l ∧
    (l.move o true sp).offset = o ∧
    (l.move o true sp).set_point = (if sp then o else l.set_point) ∧
    (l.move o true sp).quaternion =
      (match l.type with
        | .Revolute => Quaternion.fromAxisAngle l.joint_axis o
        | .Prismatic => l.quaternion) ∧
    (l.move o true sp).vector =
      (match l.type with
        | .Revolute => (Quaternion.fromAxisAngle l.joint_axis o).rotate l.home
        | .Prismatic => l.home.add (l.joint_axis.smul o)) := by
  refine ⟨?_, ?_, ?_, ?_, ?_⟩ <;> simp [Link.move, h]

/-- C4 witness: the concrete locked link is left unchanged by a move
without the override flag. -/
theorem C4_witness :
    linkPXLocked.locked = true ∧ linkPXLocked.move 1 false true = linkPXLocked :=
  ⟨rfl, (C4_locked_move linkPXLocked 1 true rfl).1⟩

/-- C5: after a chain reset every joint offset and set point equals the
default offset of the joint, the locked and ignore-limits flags are
cleared, and the base equals the remembered default base, also for joints
that were locked before the call. -/
theorem C5_reset_restores_defaults (m : SerialManipulator) (i : ℕ)
    (h : i < m.links.length) :
    m.reset.base = m.default_base ∧
    (m.reset.links.getD i default).offset = (m.links.getD i default).default_offset ∧
    (m.reset.links.getD i default).set_point = (m.links.getD i default).default_offset ∧
    (m.reset.links.getD i default).locked = false ∧
    (m.reset.links.getD i default).ignore_limits = false := by
  have hlen : i < (m.links.map fun l =>
      { l.reset with locked := false, ignore_limits := false }).length := by
    simpa using h
  have hres : m.reset.links.getD i default =
      { (m.links.getD i default).reset with
          locked := false, ignore_limits := false } := by
    rw [SerialManipulator.reset]
    rw [List.getD_eq_getElem _ _ hlen, List.getElem_map, List.getD_eq_getElem _ _ h]
  refine ⟨rfl, ?_, ?_, ?_, ?_⟩ <;> rw [hres] <;> simp [Link.reset, Link.move]

/-- C5 witness: the one-link manipulator after reset has its link at the
default offset with cleared flags and the default base. -/
theorem C5_witness :
    0 < robot1.links.length ∧
    (robot1.reset.base = robot1.default_base ∧
     (robot1.reset.links.getD 0 default).offset =
       (robot1.links.getD 0 default).default_offset ∧
     (robot1.reset.links.getD 0 default).set_point =
       (robot1.links.getD 0 default).default_offset ∧
     (robot1.reset.links.getD 0 default).locked = false ∧
     (robot1.reset.links.getD 0 default).ignore_limits = false) :=
  ⟨by decide, C5_reset_restores_defaults robot1 0 (by decide)⟩

/-- Helper: reading an index different from the written one through getD is
unchanged by set. -/
theorem getD_set_ne (l : List Link) (j i : ℕ) (a : Link) (h : i ≠ j) :
    (l.set j a).getD i default = l.getD i default := by
  simp only [List.getD, List.get?_eq_getElem?]
  rw [List.getElem?_set_ne (Ne.symm h)]

/-- Helper: the fkine loop leaves every link whose index is not among the
visited indices unchanged. -/
theorem fkineStep_untouched (q : List ℝ) (il sp : Bool) (idxs : List ℕ) (i : ℕ)
    (h : i ∉ idxs) : ∀ st : List Link × QVPair,
    ((idxs.foldl (fkineStep q il sp) st).1).getD i default = (st.1).getD i default := by
  induction idxs with
  | nil => intro st; rfl
  | cons j rest ih =>
    intro st
    have hij : i ≠ j := fun he => h (he ▸ List.mem_cons_self j rest)
    have hrest : i ∉ rest := fun hr => h (List.mem_cons_of_mem j hr)
    rw [List.foldl_cons, ih hrest]
    exact getD_set_ne _ _ _ _ hij

/-- C3 counterexample: on the one-link manipulator, a start index of 2 is
kept as effective start 2, outside the valid range [0, 1], and an end index
of -3 is kept as effective end -3, also outside it; so fkine does not clamp
both effective indices into [0, number of links]. -/
theorem C3_counterexample :
    ¬ (fkineStart 2 ≤ (robot1.numberOfLinks : ℤ)) ∧
    ¬ ((0 : ℤ) ≤ fkineEnd (robot1.numberOfLinks : ℤ) (some (-3))) := by
  constructor <;> decide

/-- C3 (amended): the effective start index is clamped below at zero but
not above, the effective end index is clamped above at the link count but
not below; the base matrix is included exactly when include_base holds and
the effective start is zero, the tool matrix exactly when the effective end
equals the link count; and every joint outside the effective range is left
unchanged by fkine. -/
theorem C3_amended_fkine_range (m : SerialManipulator) (q : List ℝ) (si : ℤ)
    (ei : Option ℤ) (ib il sp : Bool) :
    0 ≤ fkineStart si ∧
    fkineEnd (m.numberOfLinks : ℤ) ei ≤ (m.numberOfLinks : ℤ) ∧
    (ib = true ∧ fkineStart si = 0 → fkineBase m ib (fkineStart si) = m.base) ∧
    (¬ (ib = true ∧ fkineStart si = 0) → fkineBase m ib (fkineStart si) = M44.id) ∧
    (fkineEnd (m.numberOfLinks : ℤ) ei = (m.numberOfLinks : ℤ) →
      fkineTool m (fkineEnd (m.numberOfLinks : ℤ) ei) (m.numberOfLinks : ℤ) = m.tool) ∧
    (fkineEnd (m.numberOfLinks : ℤ) ei ≠ (m.numberOfLinks : ℤ) →
      fkineTool m (fkineEnd (m.numberOfLinks : ℤ) ei) (m.numberOfLinks : ℤ) = M44.id) ∧
    ∀ i : ℕ,
      i < (fkineStart si).toNat ∨ (fkineEnd (m.numberOfLinks : ℤ) ei).toNat ≤ i →
      ((m.fkine q si ei ib il sp).1.links.getD i default) = m.links.getD i default := by
  refine ⟨?_, ?_, ?_, ?_, ?_, ?_, ?_⟩
  · rw [fkineStart]; split <;> omega
  · cases ei with
    | none => simp [fkineEnd]
    | some e => simp only [fkineEnd]; split <;> omega
  · intro h; rw [fkineBase, if_pos h]
  · intro h; rw [fkineBase, if_neg h]
  · intro h; rw [fkineTool, if_pos h]
  · intro h; rw [fkineTool, if_neg h]
  · intro i hi
    have hfk : (m.fkine q si ei ib il sp).1.links =
        ((List.range' (fkineStart si).toNat
          ((fkineEnd (m.numberOfLinks : ℤ) ei).toNat - (fkineStart si).toNat)).foldl
          (fkineStep q il sp) (m.links, QVPair.identity)).1 := rfl
    rw [hfk]
    refine fkineStep_untouched q il sp _ i ?_ (m.links, QVPair.identity)
    intro hmem
    rw [List.mem_range'] at hmem
    obtain ⟨j, hj, hij⟩ := hmem
    omega

/-- C3 witness: at start index 2 and end index -3 on the one-link
manipulator, the base factor degenerates to the identity and the link at
index 0 is untouched. -/
theorem C3_witness :
    0 ≤ fkineStart 2 ∧
    fkineBase robot1 true (fkineStart 2) = M44.id ∧
    ((robot1.fkine [] 2 (some (-3)) true false true).1.links.getD 0 default) =
      robot1.links.getD 0 default :=
  have hne : ¬ (true = true ∧ fkineStart 2 = 0) := by decide
  ⟨(C3_amended_fkine_range robot1 [] 2 (some (-3)) true false true).1,
   (C3_amended_fkine_range robot1 [] 2 (some (-3)) true false true).2.2.2.1 hne,
   (C3_amended_fkine_range robot1 [] 2 (some (-3)) true false true).2.2.2.2.2.2 0
     (Or.inl (by decide))⟩

/-! Trajectory generation from sscanss/core/instrument/robotics.py. -/

/-- Sample points of numpy linspace from t0 to tf with n samples, both ends
inclusive; with a single sample the start point is returned. -/
def linspace (t0 tf : ℝ) (n : ℕ) (i : ℕ) : ℝ :=
  if n ≤ 1 then t0 else t0 + (tf - t0) * i / ((n : ℝ) - 1)

/-- Boundary condition matrix of the cubic fit, rows for position at t0,
velocity at t0, position at tf and velocity at tf, as written in the
source. -/
def trajM (t0 tf : ℝ) : Matrix (Fin 4) (Fin 4) ℝ :=
  !![1, t0, t0 * t0, t0 * t0 * t0;
     0, 1, 2 * t0, 3 * (t0 * t0);
     1, tf, tf * tf, tf * tf * tf;
     0, 1, 2 * tf, 3 * (tf * tf)]

/-- Right side of the linear system: boundary positions p0 and p1 with zero
boundary velocities v0 = v1 = 0. -/
def trajB (p0 p1 : ℝ) : Fin 4 → ℝ := ![p0, 0, p1, 0]

/-- Polynomial coefficients a, the solution of the boundary system computed
in the source as the matrix inverse applied to b. -/
def trajCoeffs (t0 tf p0 p1 : ℝ) : Fin 4 → ℝ :=
  (trajM t0 tf)⁻¹.mulVec (trajB p0 p1)

/-- Evaluation of the cubic polynomial with coefficients a, lowest degree
first, matching polyval on the reversed coefficient list. -/
def cubicPolyEval (a : Fin 4 → ℝ) (t : ℝ) : ℝ :=
  a 0 + a 1 * t + a 2 * (t * t) + a 3 * (t * t * t)

/-- First derivative of the cubic polynomial with coefficients a. -/
def cubicPolyDeriv (a : Fin 4 → ℝ) (t : ℝ) : ℝ :=
  a 1 + 2 * a 2 * t + 3 * a 3 * (t * t)

/-- Trajectory samples from p0 to p1: the cubic fitted on [0, step] with
zero boundary velocities, sampled at the step linspace points. -/
def cubic_polynomial_trajectory (p0 p1 : ℝ) (step : ℕ) (i : ℕ) : ℝ :=
  cubicPolyEval (trajCoeffs 0 (step : ℝ) p0 p1) (linspace 0 (step : ℝ) step i)

/-- Row i of the joint space trajectory grid: every degree of freedom
follows its own cubic between its start and stop values. -/
def jointTrajRow {dof : ℕ} (startc stopc : Fin dof → ℝ) (step : ℕ) (i : ℕ) :
    Fin dof → ℝ :=
  fun j => cubic_polynomial_trajectory (startc j) (stopc j) step i

/-- Joint space trajectory: the step by dof grid of configurations, row i
holding the configuration at step i. -/
def joint_space_trajectory {dof : ℕ} (startc stopc : Fin dof → ℝ) (step : ℕ) :
    List (List ℝ) :=
  (List.range step).map fun i => List.ofFn (jointTrajRow startc stopc step i)

theorem trajM_det (tf : ℝ) : (trajM 0 tf).det = tf ^ 4 := by
  rw [trajM, Matrix.det_succ_row_zero]
  simp [Fin.sum_univ_succ, Matrix.det_fin_three]
  ring

theorem trajCoeffs_eval (tf p0 p1 : ℝ) (h : tf ≠ 0) :
    trajCoeffs 0 tf p0 p1 =
      ![p0, 0, 3 * (p1 - p0) / (tf * tf), -2 * (p1 - p0) / (tf * tf * tf)] := by
  have hdet : IsUnit (trajM 0 tf).det := by
    rw [trajM_det]
    exact isUnit_iff_ne_zero.mpr (pow_ne_zero 4 h)
  have hmul : (trajM 0 tf).mulVec
      ![p0, 0, 3 * (p1 - p0) / (tf * tf), -2 * (p1 - p0) / (tf * tf * tf)] =
      trajB p0 p1 := by
    funext i
    fin_cases i
    · simp [trajM, trajB, Matrix.mulVec, Matrix.dotProduct, Fin.sum_univ_four]
    · simp [trajM, trajB, Matrix.mulVec, Matrix.dotProduct, Fin.sum_univ_four]
    · simp [trajM, trajB, Matrix.mulVec, Matrix.dotProduct, Fin.sum_univ_four]
      field_simp
      ring
    · simp [trajM, trajB, Matrix.mulVec, Matrix.dotProduct, Fin.sum_univ_four]
      field_simp
      ring
  have hstep : trajCoeffs 0 tf p0 p1 = (trajM 0 tf)⁻¹.mulVec ((trajM 0 tf).mulVec
      ![p0, 0, 3 * (p1 - p0) / (tf * tf), -2 * (p1 - p0) / (tf * tf * tf)]) := by
    rw [hmul]; rfl
  rw [hstep, Matrix.mulVec_mulVec, Matrix.nonsing_inv_mul _ hdet, Matrix.one_mulVec]

/-- C6: for equal-length start and stop configurations and at least two
steps, the joint space trajectory is a grid of step rows, each of length
dof; row zero equals the start configuration and the last row equals the
stop configuration; every entry lies on the fitted cubic of its column,
and that cubic has zero first derivative at both endpoints t = 0 and
t = step. -/
theorem C6_joint_space_trajectory (dof : ℕ) (startc stopc : Fin dof → ℝ)
    (step : ℕ) (h : 2 ≤ step) :
    (joint_space_trajectory startc stopc step).length = step ∧
    (∀ r ∈ joint_space_trajectory startc stopc step, r.length = dof) ∧
    (joint_space_trajectory startc stopc step).getD 0 [] = List.ofFn startc ∧
    (joint_space_trajectory startc stopc step).getD (step - 1) [] = List.ofFn stopc ∧
    (∀ (i : ℕ) (j : Fin dof), i < step →
      ((joint_space_trajectory startc stopc step).getD i []).getD j.val 0 =
        cubicPolyEval (trajCoeffs 0 (step : ℝ) (startc j) (stopc j))
          (linspace 0 (step : ℝ) step i)) ∧
    (∀ j : Fin dof,
      cubicPolyDeriv (trajCoeffs 0 (step : ℝ) (startc j) (stopc j)) 0 = 0 ∧
      cubicPolyDeriv (trajCoeffs 0 (step : ℝ) (startc j) (stopc j)) (step : ℝ) = 0) := by
  have h2r : (2 : ℝ) ≤ (step : ℝ) := by exact_mod_cast h
  have hstep0 : (step : ℝ) ≠ 0 := by linarith
  have hstep1 : (step : ℝ) - 1 ≠ 0 := by linarith
  have hlt : ¬ (step ≤ 1) := by omega
  have hco : ∀ j : Fin dof, trajCoeffs 0 (step : ℝ) (startc j) (stopc j) =
      ![startc j, 0, 3 * (stopc j - startc j) / ((step : ℝ) * (step : ℝ)),
        -2 * (stopc j - startc j) / ((step : ℝ) * (step : ℝ) * (step : ℝ))] :=
    fun j => trajCoeffs_eval (step : ℝ) (startc j) (stopc j) hstep0
  have ht : linspace 0 (step : ℝ) step 0 = 0 := by
    rw [linspace, if_neg hlt]
    norm_num
  have htlast : linspace 0 (step : ℝ) step (step - 1) = (step : ℝ) := by
    rw [linspace, if_neg hlt, Nat.cast_sub (by omega : 1 ≤ step)]
    push_cast
    field_simp
  have hrow : ∀ i : ℕ, i < step →
      (joint_space_trajectory startc stopc step).getD i [] =
      List.ofFn (jointTrajRow startc stopc step i) := by
    intro i hi
    rw [joint_space_trajectory,
      List.getD_eq_getElem _ _ (by simpa using hi), List.getElem_map,
      List.getElem_range]
  have hrow0 : jointTrajRow startc stopc step 0 = startc := by
    funext j
    show cubic_polynomial_trajectory (startc j) (stopc j) step 0 = startc j
    rw [cubic_polynomial_trajectory, ht, hco j]
    show startc j + 0 * 0 +
      3 * (stopc j - startc j) / ((step : ℝ) * (step : ℝ)) * (0 * 0) +
      -2 * (stopc j - startc j) / ((step : ℝ) * (step : ℝ) * (step : ℝ)) *
        (0 * 0 * 0) = startc j
    ring
  have hrowlast : jointTrajRow startc stopc step (step - 1) = stopc := by
    funext j
    show cubic_polynomial_trajectory (startc j) (stopc j) step (step - 1) = stopc j
    rw [cubic_polynomial_trajectory, htlast, hco j]
    show startc j + 0 * (step : ℝ) +
      3 * (stopc j - startc j) / ((step : ℝ) * (step : ℝ)) *
        ((step : ℝ) * (step : ℝ)) +
      -2 * (stopc j - startc j) / ((step : ℝ) * (step : ℝ) * (step : ℝ)) *
        ((step : ℝ) * (step : ℝ) * (step : ℝ)) = stopc j
    field_simp
    ring
  refine ⟨?_, ?_, ?_, ?_, ?_, ?_⟩
  · simp [joint_space_trajectory]
  · intro r hr
    rw [joint_space_trajectory] at hr
    simp only [List.mem_map] at hr
    obtain ⟨i, hi, rfl⟩ := hr
    simp
  · rw [hrow 0 (by omega), hrow0]
  · rw [hrow (step - 1) (by omega), hrowlast]
  · intro i j hi
    rw [hrow i hi, List.getD_eq_getElem _ _ (by simp), List.getElem_ofFn]
    show jointTrajRow startc stopc step i ⟨j.val, j.isLt⟩ = _
    rw [Fin.eta]
    rfl
  · intro j
    constructor
    · rw [hco j]
      show (0 : ℝ) +
        2 * (3 * (stopc j - startc j) / ((step : ℝ) * (step : ℝ))) * 0 +
        3 * (-2 * (stopc j - startc j) / ((step : ℝ) * (step : ℝ) * (step : ℝ))) *
          (0 * 0) = 0
      ring
    · rw [hco j]
      show (0 : ℝ) +
        2 * (3 * (stopc j - startc j) / ((step : ℝ) * (step : ℝ))) * (step : ℝ) +
        3 * (-2 * (stopc j - startc j) / ((step : ℝ) * (step : ℝ) * (step : ℝ))) *
          ((step : ℝ) * (step : ℝ)) = 0
      field_simp
      ring

/-- Start configuration of the concrete one-joint trajectory example. -/
def exStart : Fin 1 → ℝ := fun _ => 0

/-- Stop configuration of the concrete one-joint trajectory example. -/
def exStop : Fin 1 → ℝ := fun _ => 10

/-- C6 witness: the one-joint trajectory from 0 to 10 in 5 steps has 5 rows
and starts at the start configuration. -/
theorem C6_witness :
    2 ≤ 5 ∧
    (joint_space_trajectory exStart exStop 5).length = 5 ∧
    (joint_space_trajectory exStart exStop 5).getD 0 [] = List.ofFn exStart :=
  ⟨by norm_num,
   (C6_joint_space_trajectory 1 exStart exStop 5 (by norm_num)).1,
   (C6_joint_space_trajectory 1 exStart exStop 5 (by norm_num)).2.2.1⟩

/-! Animation sequencing. The Sequence class drives playback through a Qt
QTimeLine; the timeline itself is external library state, modelled here
from the spec: an external single-threaded scheduler maps elapsed time to a
discrete frame index proportional to elapsed over duration, and invokes the
frame callback synchronously whenever the frame index changes. -/

/-- Timeline state, modelled from the spec: total duration in
milliseconds, final frame index endFrame = step - 1 from setFrameRange,
current playback time, and the running flag behind isRunning. -/
structure Timeline where
  duration : ℕ
  endFrame : ℕ
  currentTime : ℕ
  running : Bool

/-- Frame index for a playback time, modelled from the spec: proportional
to elapsed over duration and capped at the final frame. -/
def Timeline.frameForTime (tl : Timeline) (t : ℕ) : ℕ :=
  min tl.endFrame (tl.endFrame * t / tl.duration)

/-- Animation sequence: the start and stop configurations and the step
count determine the trajectory grid computed in the constructor; config
holds the trajectory row most recently handed to the frame callback (the
configuration the chain was driven to); the timeline drives playback. -/
structure Sequence (dof : ℕ) where
  startCfg : Fin dof → ℝ
  stopCfg : Fin dof → ℝ
  stepCount : ℕ
  timeline : Timeline
  config : Fin dof → ℝ

/-- The animate slot: hand the row at the given index of the trajectory to
the frame callback, then notify observers of the frame change. -/
def Sequence.animate {dof : ℕ} (s : Sequence dof) (index : ℕ) : Sequence dof :=
  { s with config := jointTrajRow s.startCfg s.stopCfg s.stepCount index }

/-- Setting the current time of the timeline, modelled from the spec: the
time is stored and, when the mapped frame index changes, the frame changed
signal synchronously invokes animate with the new index. -/
def Sequence.setCurrentTime {dof : ℕ} (s : Sequence dof) (t : ℕ) : Sequence dof :=
  let oldFrame := s.timeline.frameForTime s.timeline.currentTime
  let newFrame := s.timeline.frameForTime t
  let s1 : Sequence dof := { s with timeline := { s.timeline with currentTime := t } }
  if newFrame ≠ oldFrame then s1.animate newFrame else s1

/-- Stop of the animation, as in the source: when the current time has not
reached the duration, snap the timeline to the duration (which fires the
frame change), then halt the scheduler. -/
def Sequence.stop {dof : ℕ} (s : Sequence dof) : Sequence dof :=
  let s1 := if s.timeline.currentTime < s.timeline.duration
    then s.setCurrentTime s.timeline.duration else s
  { s1 with timeline := { s1.timeline with running := false } }

/-- Query whether the animation is running, reading the timeline state. -/
def Sequence.isRunning {dof : ℕ} (s : Sequence dof) : Bool := s.timeline.running

/-- C9: stopping a sequence whose playback has not reached the final frame
snaps the playback position to the terminal frame, so the frame callback
receives the last trajectory row (the chain ends in the arrived state,
never mid-trajectory), and the sequence is not running afterwards. -/
theorem C9_stop_snaps_to_final (dof : ℕ) (s : Sequence dof)
    (hd : 0 < s.timeline.duration)
    (hw : s.timeline.endFrame = s.stepCount - 1)
    (hf : s.timeline.frameForTime s.timeline.currentTime < s.timeline.endFrame) :
    s.stop.config = jointTrajRow s.startCfg s.stopCfg s.stepCount (s.stepCount - 1) ∧
    s.stop.isRunning = false := by
  have ht : s.timeline.currentTime < s.timeline.duration := by
    by_contra hge
    push_neg at hge
    have hbig : s.timeline.endFrame ≤
        s.timeline.endFrame * s.timeline.currentTime / s.timeline.duration := by
      rw [Nat.le_div_iff_mul_le hd]
      exact Nat.mul_le_mul_left _ hge
    have : s.timeline.frameForTime s.timeline.currentTime = s.timeline.endFrame := by
      rw [Timeline.frameForTime]
      exact min_eq_left hbig
    omega
  have hnew : s.timeline.frameForTime s.timeline.duration = s.timeline.endFrame := by
    rw [Timeline.frameForTime, Nat.mul_div_cancel _ hd]
    exact min_self _
  have hne : s.timeline.frameForTime s.timeline.duration ≠
      s.timeline.frameForTime s.timeline.currentTime := by
    rw [hnew]
    omega
  constructor
  · show (if s.timeline.currentTime < s.timeline.duration
        then s.setCurrentTime s.timeline.duration else s).config = _
    rw [if_pos ht, Sequence.setCurrentTime]
    simp only [if_pos hne]
    show jointTrajRow s.startCfg s.stopCfg s.stepCount
        (s.timeline.frameForTime s.timeline.duration) = _
    rw [hnew, hw]
  · rfl

/-- Concrete sequence near the start of its playback. -/
def seqEx : Sequence 1 :=
  { startCfg := exStart, stopCfg := exStop, stepCount := 5,
    timeline := { duration := 100, endFrame := 4, currentTime := 0, running := true },
    config := fun _ => 0 }

/-- C9 witness: stopping the concrete sequence at time 0 hands the final
trajectory row to the callback and leaves it not running. -/
theorem C9_witness :
    (0 < seqEx.timeline.duration ∧
     seqEx.timeline.endFrame = seqEx.stepCount - 1 ∧
     seqEx.timeline.frameForTime seqEx.timeline.currentTime < seqEx.timeline.endFrame) ∧
    seqEx.stop.config =
      jointTrajRow seqEx.startCfg seqEx.stopCfg seqEx.stepCount (seqEx.stepCount - 1) ∧
    seqEx.stop.isRunning = false :=
  ⟨⟨by decide, by decide, by decide⟩,
   C9_stop_snaps_to_final 1 seqEx (by decide) (by decide) (by decide)⟩

/-! Numeric inverse kinematics from sscanss/core/instrument/robotics.py.
The StopOptimizingException control flow is embedded with Except: an error
value is the exception escaping the function uncaught. -/

/-- Masked read conf[state]: the entries of conf at the positions where
state holds. -/
def selectFree : List ℝ → List Bool → List ℝ
  | c :: cs, s :: ss => if s then c :: selectFree cs ss else selectFree cs ss
  | _, _ => []

/-- Masked assignment conf[state] = q: the positions where state holds
receive the successive entries of q, the others keep their value. -/
def setFree : List ℝ → List Bool → List ℝ → List ℝ
  | c :: cs, s :: ss, q =>
    if s then q.headD c :: setFree cs ss q.tail else c :: setFree cs ss q
  | cs, _, _ => cs

/-- Cost of a trial configuration, the body of opt without the abort logic:
run the forward kinematics at conf with all defaults (moving the links),
compose with the tool link matrix, and sum the squared position error and
the squared orientation-direction error with equal weighting. The moved
manipulator is returned alongside the error since fkine is side-effecting.
The 6-component poses of the source are embedded as a position part and a
direction part. -/
def ikCost (ri : SerialManipulator) (target_pose current_pose : V3 × V3)
    (conf : List ℝ) : SerialManipulator × ℝ :=
  let fk := ri.fkine conf 0 none true false true
  let H := fk.2.mul ri.tool_link
  let e1 := target_pose.1.sub (H.applyPoint current_pose.1)
  let e2 := target_pose.2.sub (H.applyVector current_pose.2)
  (fk.1, e1.dot e1 + e2.dot e2)

/-- Model of scipy.optimize.dual_annealing, modelled from the spec: the
external optimizer runs a budget-limited, seeded global search over the
bounded free space, evaluating the cost at a sequence of trial points, and
when no evaluation aborts the search it returns a best point r.x of the
free space. The embedding abstracts the external search by its trial
sequence and that returned point. -/
structure Annealer where
  trials : List (List ℝ)
  ret : List ℝ

/-- Evaluation of the optimizer trials through opt: each trial point is
written into the free positions of conf, the cost is evaluated (moving the
chain), the running best is updated, and a cost below the squared
tolerance raises StopOptimizingException, carrying the mutated conf out to
the except handler (the Sum.inl case); on exhaustion the best cost is
returned (the Sum.inr case) and the optimizer result stands. -/
def runTrials (target_pose current_pose : V3 × V3) (tolerance : ℝ)
    (state : List Bool) :
    List (List ℝ) → SerialManipulator → List ℝ → ℝ → (List ℝ) ⊕ ℝ
  | [], _, _, best => Sum.inr best
  | q :: rest, ri, conf, best =>
    let conf1 := setFree conf state q
    let res := ikCost ri target_pose current_pose conf1
    let best1 := if res.2 < best then res.2 else best
    if res.2 < tolerance then Sum.inl conf1
    else runTrials target_pose current_pose tolerance state rest res.1 conf1 best1

/-- Continuation of the solver after the first cost evaluation opt(q0).
That first call sits outside the try block in the source, so when its cost
err0 is already below the squared tolerance the StopOptimizingException it
raises escapes the function (the first branch); the early return of q0
guarded by best_result < tolerance follows it in the source and is
therefore unreachable (best_result equals err0 there, being initialized to
infinity); otherwise the optimizer runs inside the try block, an abort is
caught and returns the mutated full configuration conf, and a normal
optimizer termination returns the optimizer point r.x. -/
def ikAfterFirstEval (q0 : List ℝ) (state : List Bool)
    (target_pose current_pose : V3 × V3) (tolerance : ℝ) (annealer : Annealer)
    (ri1 : SerialManipulator) (conf0 : List ℝ) (err0 : ℝ) : Except Unit (List ℝ) :=
  if err0 < tolerance then Except.error ()
  else if err0 < tolerance then Except.ok q0
  else
    match runTrials target_pose current_pose tolerance state annealer.trials
        ri1 conf0 err0 with
    | Sum.inl confAtRaise => Except.ok confAtRaise
    | Sum.inr _ => Except.ok annealer.ret

/-- The numeric inverse kinematics solver of the source: square the
tolerance, mask the unlocked links, seed at the free part q0 of the current
configuration, evaluate the cost once at q0, and continue as in
ikAfterFirstEval. The bounds are restricted to the free subset and handed
to the external optimizer, which the Annealer models. -/
def numeric_inverse_kinematics (ri : SerialManipulator)
    (target_pose current_pose : V3 × V3) (bounds : List (ℝ × ℝ)) (tol : ℝ)
    (annealer : Annealer) : Except Unit (List ℝ) :=
  let tolerance := tol * tol
  let conf := ri.configuration
  let state := ri.links.map fun l => !l.locked
  let q0 := selectFree conf state
  let conf0 := setFree conf state q0
  let res0 := ikCost ri target_pose current_pose conf0
  ikAfterFirstEval q0 state target_pose current_pose tolerance annealer
    res0.1 conf0 res0.2

/-! Evaluation lemmas on the concrete manipulators. -/

theorem normalized_unitX : (⟨1, 0, 0⟩ : V3).normalized = ⟨1, 0, 0⟩ := by
  have h1 : (⟨1, 0, 0⟩ : V3).length = 1 := by
    rw [V3.length, V3.dot]
    rw [show (1 : ℝ) * 1 + 0 * 0 + 0 * 0 = 1 by norm_num]
    exact Real.sqrt_one
  rw [V3.normalized, h1, V3.divs]
  ext <;> norm_num

theorem fromAxisAngle_unitX_zero :
    Quaternion.fromAxisAngle ⟨1, 0, 0⟩ 0 = Quaternion.identity := by
  rw [Quaternion.fromAxisAngle, normalized_unitX]
  rw [show (0 : ℝ) / 2 = 0 by norm_num]
  ext <;> simp [V3.smul, Quaternion.identity]

theorem identity_magnitude : Quaternion.identity.magnitude = 1 := by
  rw [Quaternion.magnitude]
  rw [show Quaternion.identity.x * Quaternion.identity.x +
      Quaternion.identity.y * Quaternion.identity.y +
      Quaternion.identity.z * Quaternion.identity.z +
      Quaternion.identity.w * Quaternion.identity.w = 1 by
    norm_num [Quaternion.identity]]
  exact Real.sqrt_one

theorem identity_inverse : Quaternion.identity.inverse = Quaternion.identity := by
  rw [Quaternion.inverse]
  have hc : Quaternion.identity.conjugate = Quaternion.identity := by
    rw [Quaternion.conjugate]
    ext <;> norm_num [Quaternion.identity]
  rw [hc, Quaternion.normalize, identity_magnitude]
  norm_num [Quaternion.identity]

theorem identity_mul (p : Quaternion) : Quaternion.identity.mul p = p := by
  rw [Quaternion.mul]
  ext <;>
    simp [Quaternion.identity, Quaternion.axis, V3.dot, V3.smul, V3.add, V3.cross]

theorem mul_identity (q : Quaternion) : q.mul Quaternion.identity = q := by
  rw [Quaternion.mul]
  ext <;>
    simp [Quaternion.identity, Quaternion.axis, V3.dot, V3.smul, V3.add, V3.cross]

theorem identity_rotate (v : V3) : Quaternion.identity.rotate v = v := by
  rw [Quaternion.rotate, identity_inverse, identity_mul, mul_identity]
  rfl

theorem qvpair_identity_mul (p : QVPair) : QVPair.identity.mul p = p := by
  rw [QVPair.mul]
  show (⟨Quaternion.identity.mul p.quaternion,
    (Quaternion.identity.rotate p.vector).add V3.zero⟩ : QVPair) = p
  rw [identity_mul, identity_rotate]
  ext <;> simp [V3.add, V3.zero]

theorem qvpair_identity_toMatrix : QVPair.identity.toMatrix = M44.id := by
  rw [QVPair.toMatrix]
  ext <;>
    norm_num [Quaternion.toMatrix, Quaternion.identity, QVPair.identity,
      V3.zero, M44.id]

theorem m44_id_mul (a : M44) : M44.id.mul a = a := by
  rw [M44.mul]
  ext <;> simp [M44.id]

theorem m44_mul_id (a : M44) : a.mul M44.id = a := by
  rw [M44.mul]
  ext <;> simp [M44.id]

theorem m44_id_applyPoint (p : V3) : M44.id.applyPoint p = p := by
  rw [M44.applyPoint]
  ext <;> simp [M44.id]

theorem m44_id_applyVector (p : V3) : M44.id.applyVector p = p := by
  rw [M44.applyVector]
  ext <;> simp [M44.id]

theorem linkPX_pair : linkPX.quaterionVectorPair = QVPair.identity := by
  rw [Link.quaterionVectorPair]
  have hq : linkPX.quaternion = Quaternion.identity := by
    show Quaternion.fromAxisAngle ⟨1, 0, 0⟩ 0 = Quaternion.identity
    exact fromAxisAngle_unitX_zero
  have hv : linkPX.vector = V3.zero := by
    show V3.zero.add ((⟨1, 0, 0⟩ : V3).smul 0) = V3.zero
    ext <;> simp [V3.add, V3.smul, V3.zero]
  rw [hq, hv]
  rfl

theorem robot1_fkine : robot1.fkine [0] 0 none true false true = (robot1, M44.id) := by
  have h2 : robot1.fkine [0] 0 none true false true =
      (robot1, (M44.id.mul ((QVPair.identity.mul
        linkPX.quaterionVectorPair).toMatrix)).mul M44.id) := rfl
  rw [h2, qvpair_identity_mul, linkPX_pair, qvpair_identity_toMatrix,
    m44_id_mul, m44_mul_id]

theorem robot2_fkine : robot2.fkine [0, 0] 0 none true false true = (robot2, M44.id) := by
  have h2 : robot2.fkine [0, 0] 0 none true false true =
      (robot2, (M44.id.mul (((QVPair.identity.mul
        linkPXLocked.quaterionVectorPair).mul
        linkPX.quaterionVectorPair).toMatrix)).mul M44.id) := rfl
  rw [h2, show linkPXLocked.quaterionVectorPair = linkPX.quaterionVectorPair from rfl]
  rw [linkPX_pair, qvpair_identity_mul, qvpair_identity_mul,
    qvpair_identity_toMatrix, m44_id_mul, m44_mul_id]

theorem ikCost_robot1 :
    ikCost robot1 ⟨V3.zero, V3.zero⟩ ⟨V3.zero, V3.zero⟩ [0] = (robot1, 0) := by
  simp only [ikCost]
  rw [robot1_fkine]
  dsimp only
  rw [show robot1.tool_link = M44.id from rfl, m44_id_mul, m44_id_applyPoint,
    m44_id_applyVector]
  norm_num [V3.sub, V3.dot, V3.zero]

theorem ikCost_robot2 :
    ikCost robot2 ⟨⟨5, 0, 0⟩, V3.zero⟩ ⟨V3.zero, V3.zero⟩ [0, 0] = (robot2, 25) := by
  simp only [ikCost]
  rw [robot2_fkine]
  dsimp only
  rw [show robot2.tool_link = M44.id from rfl, m44_id_mul, m44_id_applyPoint,
    m44_id_applyVector]
  norm_num [V3.sub, V3.dot, V3.zero]

/-- C1: the claim states that a cost already below the squared tolerance at
the current configuration makes the solver return q0 immediately and
normally; on the code, the first evaluation opt(q0) sits outside the try
block and raises StopOptimizingException in exactly that case, so the
exception escapes to the caller and the guarded early return of q0 is dead
code. On the concrete one-link manipulator already at its target (cost 0,
tolerance 1) the solver evaluates to the escaped exception. -/
theorem C1_ik_raises_when_converged :
    numeric_inverse_kinematics robot1 ⟨V3.zero, V3.zero⟩ ⟨V3.zero, V3.zero⟩
      [(-10, 10)] 1 ⟨[], [0]⟩ = Except.error () := by
  have h1 : numeric_inverse_kinematics robot1 ⟨V3.zero, V3.zero⟩ ⟨V3.zero, V3.zero⟩
      [(-10, 10)] 1 ⟨[], [0]⟩ =
      ikAfterFirstEval [0] [true] ⟨V3.zero, V3.zero⟩ ⟨V3.zero, V3.zero⟩ (1 * 1)
        ⟨[], [0]⟩
        (ikCost robot1 ⟨V3.zero, V3.zero⟩ ⟨V3.zero, V3.zero⟩ [0]).1 [0]
        (ikCost robot1 ⟨V3.zero, V3.zero⟩ ⟨V3.zero, V3.zero⟩ [0]).2 := rfl
  rw [h1, ikCost_robot1]
  rw [ikAfterFirstEval, if_pos (by norm_num : (0 : ℝ) < 1 * 1)]

theorem setFree_length : ∀ (c : List ℝ) (s : List Bool) (q : List ℝ),
    (setFree c s q).length = c.length := by
  intro c
  induction c with
  | nil => intro s q; cases s <;> rfl
  | cons x cs ih =>
    intro s q
    cases s with
    | nil => rfl
    | cons b ss =>
      simp only [setFree]
      split <;> simp [ih]

theorem setFree_getD_of_not_state :
    ∀ (c : List ℝ) (s : List Bool) (q : List ℝ) (i : ℕ),
    s.getD i true = false → (setFree c s q).getD i 0 = c.getD i 0 := by
  intro c
  induction c with
  | nil => intro s q i h; cases s <;> rfl
  | cons x cs ih =>
    intro s q i h
    cases s with
    | nil => rfl
    | cons b ss =>
      simp only [setFree]
      cases i with
      | zero =>
        have hb : b = false := by simpa using h
        rw [hb]
        simp
      | succ j =>
        have hj : ss.getD j true = false := by simpa using h
        by_cases hb : b = true
        · rw [hb, if_pos rfl]
          rw [List.getD_cons_succ, List.getD_cons_succ]
          exact ih ss q.tail j hj
        · rw [if_neg hb]
          rw [List.getD_cons_succ, List.getD_cons_succ]
          exact ih ss q j hj

theorem runTrials_inl (tgt cur : V3 × V3) (tolerance : ℝ) (state : List Bool) :
    ∀ (trials : List (List ℝ)) (ri : SerialManipulator) (conf : List ℝ)
      (best : ℝ) (cfa : List ℝ),
    runTrials tgt cur tolerance state trials ri conf best = Sum.inl cfa →
    cfa.length = conf.length ∧
    ∀ i : ℕ, state.getD i true = false → cfa.getD i 0 = conf.getD i 0 := by
  intro trials
  induction trials with
  | nil =>
    intro ri conf best cfa h
    exact absurd h (by simp [runTrials])
  | cons q rest ih =>
    intro ri conf best cfa h
    simp only [runTrials] at h
    split at h
    · have hcfa : setFree conf state q = cfa := by simpa using h
      subst hcfa
      refine ⟨setFree_length conf state q, ?_⟩
      intro i hi
      exact setFree_getD_of_not_state conf state q i hi
    · obtain ⟨h1, h2⟩ := ih _ _ _ _ h
      constructor
      · rw [h1, setFree_length]
      · intro i hi
        rw [h2 i hi, setFree_getD_of_not_state conf state q i hi]

theorem configuration_getD (ri : SerialManipulator) (i : ℕ)
    (h : i < ri.links.length) :
    ri.configuration.getD i 0 = (ri.links.getD i default).offset := by
  rw [SerialManipulator.configuration,
    List.getD_eq_getElem _ _ (by simpa using h), List.getElem_map,
    List.getD_eq_getElem _ _ h]

theorem lockState_getD (ri : SerialManipulator) (i : ℕ)
    (h : i < ri.links.length) :
    (ri.links.map fun l => !l.locked).getD i true =
      !(ri.links.getD i default).locked := by
  rw [List.getD_eq_getElem _ _ (by simpa using h), List.getElem_map,
    List.getD_eq_getElem _ _ h]

/-- C2 (amended): whenever the solver returns normally, the output vector
is in one of two forms depending on the return path: on normal optimizer
termination it is the optimizer point r.x over the free variables only
(the locked entries are omitted, not preserved); on the caught-abort path
it is the full mutated configuration, whose length is the number of links
and whose locked entries equal the offsets held when the solve started.
The claimed single consistent full-configuration form does not hold. -/
theorem C2_amended_output_forms (ri : SerialManipulator) (tgt cur : V3 × V3)
    (bounds : List (ℝ × ℝ)) (tol : ℝ) (ann : Annealer) (out : List ℝ)
    (hok : numeric_inverse_kinematics ri tgt cur bounds tol ann = Except.ok out) :
    out = ann.ret ∨
    (out.length = ri.links.length ∧
     ∀ i : ℕ, i < ri.links.length → (ri.links.getD i default).locked = true →
       out.getD i 0 = (ri.links.getD i default).offset) := by
  have h1 : numeric_inverse_kinematics ri tgt cur bounds tol ann =
      ikAfterFirstEval
        (selectFree ri.configuration (ri.links.map fun l => !l.locked))
        (ri.links.map fun l => !l.locked) tgt cur (tol * tol) ann
        (ikCost ri tgt cur (setFree ri.configuration
          (ri.links.map fun l => !l.locked)
          (selectFree ri.configuration (ri.links.map fun l => !l.locked)))).1
        (setFree ri.configuration (ri.links.map fun l => !l.locked)
          (selectFree ri.configuration (ri.links.map fun l => !l.locked)))
        (ikCost ri tgt cur (setFree ri.configuration
          (ri.links.map fun l => !l.locked)
          (selectFree ri.configuration (ri.links.map fun l => !l.locked)))).2 := rfl
  rw [h1, ikAfterFirstEval] at hok
  split_ifs at hok
  rcases hrun : runTrials tgt cur (tol * tol) (ri.links.map fun l => !l.locked)
      ann.trials
      (ikCost ri tgt cur (setFree ri.configuration
        (ri.links.map fun l => !l.locked)
        (selectFree ri.configuration (ri.links.map fun l => !l.locked)))).1
      (setFree ri.configuration (ri.links.map fun l => !l.locked)
        (selectFree ri.configuration (ri.links.map fun l => !l.locked)))
      (ikCost ri tgt cur (setFree ri.configuration
        (ri.links.map fun l => !l.locked)
        (selectFree ri.configuration (ri.links.map fun l => !l.locked)))).2
    with cfa | b
  · rw [hrun] at hok
    have hout : cfa = out := by
      simpa using hok
    subst hout
    obtain ⟨hlen, hpres⟩ := runTrials_inl _ _ _ _ _ _ _ _ _ hrun
    right
    constructor
    · rw [hlen, setFree_length]
      simp [SerialManipulator.configuration]
    · intro i hi hlock
      have hstate : (ri.links.map fun l => !l.locked).getD i true = false := by
        rw [lockState_getD ri i hi, hlock]
        rfl
      rw [hpres i hstate, setFree_getD_of_not_state _ _ _ _ hstate,
        configuration_getD ri i hi]
  · rw [hrun] at hok
    left
    symm
    simpa using hok

theorem robot2_ik_eval :
    numeric_inverse_kinematics robot2 ⟨⟨5, 0, 0⟩, V3.zero⟩ ⟨V3.zero, V3.zero⟩
      [(-10, 10), (-10, 10)] 1 ⟨[], [0]⟩ = Except.ok [0] := by
  have h1 : numeric_inverse_kinematics robot2 ⟨⟨5, 0, 0⟩, V3.zero⟩
      ⟨V3.zero, V3.zero⟩ [(-10, 10), (-10, 10)] 1 ⟨[], [0]⟩ =
      ikAfterFirstEval [0] [false, true] ⟨⟨5, 0, 0⟩, V3.zero⟩ ⟨V3.zero, V3.zero⟩
        (1 * 1) ⟨[], [0]⟩
        (ikCost robot2 ⟨⟨5, 0, 0⟩, V3.zero⟩ ⟨V3.zero, V3.zero⟩ [0, 0]).1 [0, 0]
        (ikCost robot2 ⟨⟨5, 0, 0⟩, V3.zero⟩ ⟨V3.zero, V3.zero⟩ [0, 0]).2 := rfl
  rw [h1, ikCost_robot2]
  rw [ikAfterFirstEval, if_neg (by norm_num : ¬ (25 : ℝ) < 1 * 1),
    if_neg (by norm_num : ¬ (25 : ℝ) < 1 * 1)]
  rfl

/-- C2 counterexample: on the two-link manipulator with its first link
locked and an unreachable target (cost 25, tolerance 1), the solver
terminates through the optimizer and returns the optimizer point, a vector
over the single free variable; its length differs from the number of
links, so this return path does not output the full configuration vector
with the locked variable preserved. -/
theorem C2_counterexample :
    numeric_inverse_kinematics robot2 ⟨⟨5, 0, 0⟩, V3.zero⟩ ⟨V3.zero, V3.zero⟩
      [(-10, 10), (-10, 10)] 1 ⟨[], [0]⟩ = Except.ok [0] ∧
    ([0] : List ℝ).length ≠ robot2.numberOfLinks :=
  ⟨robot2_ik_eval, by decide⟩

/-- C2 witness: the amended theorem applied at the concrete solve, where
the optimizer-point form of the output is the one realized. -/
theorem C2_witness :
    numeric_inverse_kinematics robot2 ⟨⟨5, 0, 0⟩, V3.zero⟩ ⟨V3.zero, V3.zero⟩
      [(-10, 10), (-10, 10)] 1 ⟨[], [0]⟩ = Except.ok [0] ∧
    (([0] : List ℝ) = (⟨[], [0]⟩ : Annealer).ret ∨
     (([0] : List ℝ).length = robot2.links.length ∧
      ∀ i : ℕ, i < robot2.links.length →
        (robot2.links.getD i default).locked = true →
        ([0] : List ℝ).getD i 0 = (robot2.links.getD i default).offset)) :=
  ⟨robot2_ik_eval,
   C2_amended_output_forms robot2 ⟨⟨5, 0, 0⟩, V3.zero⟩ ⟨V3.zero, V3.zero⟩
     [(-10, 10), (-10, 10)] 1 ⟨[], [0]⟩ [0] robot2_ik_eval⟩

end

end SScanSS
